import Mathlib

/-!
Verification of the waveform space-view aggregation and query engine.

The Rust source is shallowly embedded:
* `i64` timestamps become `Int` (`WaveformTime`);
* `f64` analog values become `ℚ` (all arithmetic the engine performs on
  them — `min`, `max`, `+`, `-`, `*`, `/` — is exact at the inputs the
  claims mention);
* `BTreeMap` becomes a list of key/value pairs kept in strictly
  ascending key order, with `insert`/range semantics spelled out;
* fallible store queries become `Option (Except QueryError _)` values
  (`None` = component absent, `Except.error` = adapter failure).
-/

namespace Waveform

/-- Timestamps (`WaveformTime = i64` in `lib.rs`). -/
abbrev WaveformTime := Int

/-- Model of `egui::Color32` (RGBA). -/
structure Color32 where
  r : Nat
  g : Nat
  b : Nat
  a : Nat
  deriving DecidableEq, Repr

/-- An entity path: the ordered list of path parts (`re_sdk::EntityPath`). -/
abbrev EntityPath := List String

/-- Model of `AnalogPoint` from `lib.rs`: one value at one time. -/
structure AnalogPoint where
  value : ℚ
  deriving DecidableEq, Repr

/-- Model of `BTreeMap::insert`: sorted insert, replacing an existing key. -/
def btInsert {α : Type} (l : List (WaveformTime × α)) (k : WaveformTime) (v : α) :
    List (WaveformTime × α) :=
  match l with
  | [] => [(k, v)]
  | e :: rest =>
    if k < e.1 then (k, v) :: e :: rest
    else if k = e.1 then (k, v) :: rest
    else e :: btInsert rest k v

/-- Model of `Iterator::collect::<BTreeMap<_,_>>()`: repeated insertion
(later entries overwrite earlier ones at equal keys). -/
def btCollect {α : Type} (entries : List (WaveformTime × α)) : List (WaveformTime × α) :=
  entries.foldl (fun m e => btInsert m e.1 e.2) []

/-- Model of `BTreeMap::range((Included lo, Included hi))` over the sorted entries. -/
def btRangeCC {α : Type} (l : List (WaveformTime × α)) (lo hi : WaveformTime) :
    List (WaveformTime × α) :=
  l.filter (fun e => decide (lo ≤ e.1 ∧ e.1 ≤ hi))

/-- Model of `AnalogPoints` from `lib.rs`. -/
structure AnalogPoints where
  points : List (WaveformTime × AnalogPoint)
  y_range : Option (ℚ × ℚ)
  deriving DecidableEq, Repr

/-- Model of `AnalogPoints::push` (`lib.rs` lines 76–78): it inserts into the map
and does not touch `y_range`. -/
def AnalogPoints.push (ap : AnalogPoints) (time : WaveformTime) (value : ℚ) : AnalogPoints :=
  { ap with points := btInsert ap.points time (AnalogPoint.mk value) }

/-- Model of `DiscreteTransitionKind` from `lib.rs`. -/
inductive DiscreteTransitionKind where
  | Line : DiscreteTransitionKind
  | Box : DiscreteTransitionKind
  deriving DecidableEq, Repr

/-- Model of `DiscreteTransition` from `lib.rs`. -/
structure DiscreteTransition where
  label : Option String
  color : Color32
  kind : DiscreteTransitionKind
  deriving DecidableEq, Repr

/-- Model of `DiscretePoints` from `lib.rs`. -/
structure DiscretePoints where
  transitions : List (WaveformTime × DiscreteTransition)
  init : Option DiscreteTransition
  deriving DecidableEq, Repr

/-- Model of `EventMarker` from `lib.rs`. -/
structure EventMarker where
  entity_path : EntityPath
  label : Option String
  color : Color32
  deriving DecidableEq, Repr

/-- Model of `WaveformSeries` from `lib.rs`. -/
structure WaveformSeries where
  entity_path : EntityPath
  min_time : WaveformTime
  max_time : WaveformTime
  analog_points : AnalogPoints
  discrete_points : DiscretePoints
  color : Color32
  deriving DecidableEq, Repr

/-- Model of `WaveformSeries::len_series`. -/
def WaveformSeries.len_series (s : WaveformSeries) : Nat :=
  s.analog_points.points.length + s.discrete_points.transitions.length

/-! ## Point lookup (space_view_class.rs, lines 853–918) -/

/-- The constant `CURSOR_TIME_TOLERANCE` (`space_view_class.rs` line 115). -/
def CURSOR_TIME_TOLERANCE : WaveformTime := 1

/-- The analog half of point lookup (`space_view_class.rs` lines 857–909):
first `points.range(seek-tol ..= seek+tol).next()` (value verbatim,
not interpolated); otherwise the last point strictly before and the first
point strictly after the seek time, linearly interpolated when both
exist.  The `Bool` is `is_interpolated`. -/
def analogLookup (points : List (WaveformTime × AnalogPoint)) (seek_time : WaveformTime) :
    Option (ℚ × Bool) :=
  match (btRangeCC points (seek_time - CURSOR_TIME_TOLERANCE)
      (seek_time + CURSOR_TIME_TOLERANCE)).head? with
  | some p => some (p.2.value, false)
  | none =>
    let point_before := (points.filter (fun e => decide (e.1 < seek_time))).getLast?
    let point_after := (points.filter (fun e => decide (seek_time < e.1))).head?
    match point_before, point_after with
    | some (t1, p1), some (t2, p2) =>
      let slope := (p2.value - p1.value) / ((t2 : ℚ) - (t1 : ℚ))
      some (p1.value + slope * ((seek_time : ℚ) - (t1 : ℚ)), true)
    | some _, none => none
    | none, some _ => none
    | none, none => none

/-- The discrete half of point lookup (`space_view_class.rs` lines 911–918):
`transitions.range(..=seek).last()`.  The `init` field is not consulted. -/
def discreteLookup (dp : DiscretePoints) (seek_time : WaveformTime) :
    Option (WaveformTime × DiscreteTransition) :=
  (dp.transitions.filter (fun e => decide (e.1 ≤ seek_time))).getLast?

/-! ## Selection state machine (space_view_class.rs, lines 40–70) -/

/-- Model of `SelectedMode` (`space_view_class.rs` lines 40–45). -/
inductive SelectedMode where
  | Selected : Finset EntityPath → SelectedMode
  | Unselected : SelectedMode
  deriving DecidableEq

/-- Model of `SelectedMode::toggle` (`space_view_class.rs` lines 54–60). -/
def SelectedMode.toggle (m : SelectedMode) (paths : Finset EntityPath) : SelectedMode :=
  match m with
  | .Selected _ => .Unselected
  | .Unselected => if ¬ paths = ∅ then .Selected paths else .Unselected

/-! ## Per-domain value bounds (space_view_class.rs, lines 382–434) -/

/-- One step of the `min_y` fold (`space_view_class.rs` lines 385–391).
Note the accumulator is fed through `s.analog_points.y_range.map`, so a
series without a `y_range` resets the accumulator to `None`. -/
def minYStep (i : Option ℚ) (s : WaveformSeries) : Option ℚ :=
  match i with
  | some v => s.analog_points.y_range.map (fun r => min v r.1)
  | none => s.analog_points.y_range.map (fun r => r.1)

/-- One step of the `max_y` fold (`space_view_class.rs` lines 393–399). -/
def maxYStep (i : Option ℚ) (s : WaveformSeries) : Option ℚ :=
  match i with
  | some v => s.analog_points.y_range.map (fun r => max v r.2)
  | none => s.analog_points.y_range.map (fun r => r.2)

/-- The `min_y` fold over one domain's series. -/
def foldMinY (domain_series : List WaveformSeries) : Option ℚ :=
  domain_series.foldl minYStep none

/-- The `max_y` fold over one domain's series. -/
def foldMaxY (domain_series : List WaveformSeries) : Option ℚ :=
  domain_series.foldl maxYStep none

/-- The `(min_y, max_y, any_analog_points)` match (`space_view_class.rs`
lines 401–416); `Except.error` models the `WaveformSpaceViewDrawError` arm. -/
def domainBounds (domain_series : List WaveformSeries) : Except String (ℚ × ℚ × Bool) :=
  match foldMinY domain_series, foldMaxY domain_series with
  | none, none => .ok (-1, 1, false)
  | none, some v => .ok (v - 1/2, v + 1/2, true)
  | some v, none => .ok (v - 1/2, v + 1/2, true)
  | some x, some y =>
    if x < y then .ok (x, y, true)
    else if x = y then .ok (x - 1/2, x + 1/2, true)
    else .error ("Invalid analog y range")

/-- Modelled from the spec: "combine every series' analog value range via
min/max folding" (§4.3).  This is the spec's reading of the bounds fold,
kept separate from `foldMinY`/`foldMaxY` so the two can be compared. -/
def specFoldYRanges (domain_series : List WaveformSeries) : Option (ℚ × ℚ) :=
  domain_series.foldl (fun acc s =>
    match acc, s.analog_points.y_range with
    | some (lo, hi), some (lo2, hi2) => some (min lo lo2, max hi hi2)
    | none, some r => some r
    | acc, none => acc) none

/-! ## Series builder / domain aggregator (visualizer_system.rs) -/

/-- Model of `re_query::QueryError` (the variants the engine distinguishes). -/
inductive QueryError where
  | PrimaryNotFound : String → QueryError
  | BadAccess : QueryError
  | Other : String → QueryError
  deriving DecidableEq, Repr

/-- A class id (`re_types::components::ClassId`). -/
abbrev ClassId := Nat

/-- A resolved annotation (`re_types::datatypes::AnnotationInfo`). -/
structure AnnotationInfo where
  id : ClassId
  label : Option String
  color : Option Color32
  deriving DecidableEq, Repr

/-- The Annotation Resolver interface: entity path and class id to an
optional annotation (`AnnotationWaveformContext::get_annotation` followed
by `.annotation_info`). -/
abbrev Resolver := EntityPath → ClassId → Option AnnotationInfo

/-- Model of `annotation_info_color` (`visualizer_system.rs` lines 379–385):
explicit color, or the deterministic auto color keyed by the class id. -/
def annotationInfoColor (autoColorEgui : ClassId → Color32) (info : AnnotationInfo) : Color32 :=
  match info.color with
  | some c => c
  | none => autoColorEgui info.id

/-- One component stream as consumed from the sample store:
`None` models `get_required_component_dense` returning `None`
(component absent); `Except.error` models a failing `?`. -/
abbrev Stream (α : Type) := Option (Except QueryError (List (WaveformTime × List α)))

/-- The raw per-entity input of one aggregation pass: the five
independently fetched component streams. -/
structure EntityInput where
  entity_path : EntityPath
  scalars : Stream ℚ
  discretes : Stream ClassId
  discreteInits : Stream ClassId
  discreteNormals : Stream ClassId
  events : Stream ClassId

/-- The running `(min_time, max_time)` pair of `load_points`. -/
abbrev TimeAcc := Option WaveformTime × Option WaveformTime

/-- The `min_time`/`max_time` update performed at every surviving sample
(`min_time.map(|t| t.min(time)).or(Some(time))`, and dually for max). -/
def updTimes (st : TimeAcc) (time : WaveformTime) : TimeAcc :=
  (some (match st.1 with | some t => min t time | none => time),
   some (match st.2 with | some t => max t time | none => time))

/-- Accumulator of the analog ingestion `filter_map` (`visualizer_system.rs`
lines 145–170): time bounds, running `y_range`, and the surviving entries. -/
structure AnalogAcc where
  times : TimeAcc
  y_range : Option (ℚ × ℚ)
  entries : List (WaveformTime × AnalogPoint)
  deriving DecidableEq

/-- One step of analog ingestion: value-bags of length `> 1` or `0` are
skipped; a surviving entry updates the time bounds and `y_range` and is
kept (`data.first().map_or(0.0, ...)` reads the single value). -/
def analogStep (st : AnalogAcc) (e : WaveformTime × List ℚ) : AnalogAcc :=
  if e.2.length > 1 then st
  else if e.2.isEmpty then st
  else
    let time := e.1
    let value := e.2.head?.getD 0
    { times := updTimes st.times time
      y_range :=
        match st.y_range with
        | some (lo, hi) => some (min lo value, max hi value)
        | none => some (value, value)
      entries := st.entries ++ [(time, AnalogPoint.mk value)] }

/-- The analog block of `load_points` (`visualizer_system.rs` lines 125–171). -/
def processAnalog (scalars : Stream ℚ) (st : TimeAcc) :
    Except QueryError (TimeAcc × AnalogPoints) :=
  match scalars with
  | none => .ok (st, { points := [], y_range := none })
  | some (.error e) => .error e
  | some (.ok entries) =>
    let acc := entries.foldl analogStep { times := st, y_range := none, entries := [] }
    .ok (acc.times, { points := btCollect acc.entries, y_range := acc.y_range })

/-- The "normal" stream filter (`visualizer_system.rs` lines 215–227):
value-bags of length ≠ 1 yield nothing. -/
def normalFilter (e : WaveformTime × List ClassId) : Option ClassId :=
  if e.2.length > 1 then none
  else if e.2.isEmpty then none
  else e.2.head?

/-- The first discrete `filter_map` (`visualizer_system.rs` lines 234–242):
value-bags of length ≠ 1 are dropped, survivors keep `data.first()`. -/
def discreteEntryFilter (e : WaveformTime × List ClassId) :
    Option (WaveformTime × Option ClassId) :=
  if e.2.length > 1 ∨ e.2.isEmpty then none
  else some (e.1, e.2.head?)

/-- Accumulator of the second discrete `filter_map`. -/
structure DiscreteAcc where
  times : TimeAcc
  entries : List (WaveformTime × DiscreteTransition)
  deriving DecidableEq

/-- The second discrete `filter_map` (`visualizer_system.rs` lines 243–271):
the time bounds are updated for every surviving entry, then the class id is
resolved; an unresolvable id contributes no transition.  A transition whose
class id equals the normal id is `Line`, otherwise `Box`. -/
def discreteResolveStep (resolve : Resolver) (autoColorEgui : ClassId → Color32)
    (path : EntityPath) (discrete_normal : Option ClassId)
    (st : DiscreteAcc) (e : WaveformTime × Option ClassId) : DiscreteAcc :=
  let times := updTimes st.times e.1
  match e.2 with
  | some class_id =>
    match resolve path class_id with
    | some info =>
      let kind := if some class_id = discrete_normal then DiscreteTransitionKind.Line
        else DiscreteTransitionKind.Box
      { times := times
        entries := st.entries ++
          [(e.1, { label := info.label
                   color := annotationInfoColor autoColorEgui info
                   kind := kind })] }
    | none => { st with times := times }
  | none => { st with times := times }

/-- The init `find_map` filter (`visualizer_system.rs` lines 274–282). -/
def initFilter (e : WaveformTime × List ClassId) : Option ClassId :=
  if e.2.length > 1 ∨ e.2.isEmpty then none
  else e.2.head?

/-- Seeding `init` (`visualizer_system.rs` lines 284–300): the first
single-valued init entry, if resolvable, becomes the init transition. -/
def findInit (resolve : Resolver) (autoColorEgui : ClassId → Color32) (path : EntityPath)
    (discrete_normal : Option ClassId) (initEntries : List (WaveformTime × List ClassId)) :
    Option DiscreteTransition :=
  match initEntries.findSome? initFilter with
  | some class_id =>
    match resolve path class_id with
    | some info =>
      some { label := info.label
             color := annotationInfoColor autoColorEgui info
             kind := if some class_id = discrete_normal then DiscreteTransitionKind.Line
               else DiscreteTransitionKind.Box }
    | none => none
  | none => none

/-- The body of the discrete block once all three streams are in hand
(`visualizer_system.rs` lines 215–300). -/
def loadDiscrete (resolve : Resolver) (autoColorEgui : ClassId → Color32) (path : EntityPath)
    (d di dn : List (WaveformTime × List ClassId)) (st : TimeAcc) :
    TimeAcc × DiscretePoints :=
  let discrete_normal := (dn.filterMap normalFilter).head?
  let acc := (d.filterMap discreteEntryFilter).foldl
    (discreteResolveStep resolve autoColorEgui path discrete_normal)
    { times := st, entries := [] }
  (acc.times,
   { transitions := btCollect acc.entries
     init := findInit resolve autoColorEgui path discrete_normal di })

/-- The discrete block's gate (`visualizer_system.rs` lines 185–192): the
`if let (Some, Some, Some)` requires all three discrete components to be
present; only then are the three results unwrapped (in order), and the
block runs. -/
def processDiscreteStreams (resolve : Resolver) (autoColorEgui : ClassId → Color32)
    (path : EntityPath) (dq diq dnq : Stream ClassId) (st : TimeAcc) :
    Except QueryError (TimeAcc × DiscretePoints) :=
  match dq, diq, dnq with
  | some dres, some dires, some dnres =>
    match dres with
    | .error e => .error e
    | .ok d =>
      match dires with
      | .error e => .error e
      | .ok di =>
        match dnres with
        | .error e => .error e
        | .ok dn => .ok (loadDiscrete resolve autoColorEgui path d di dn st)
  | _, _, _ => .ok (st, { transitions := [], init := none })

/-- Accumulator of event ingestion. -/
structure EventAcc where
  times : TimeAcc
  markers : List (WaveformTime × EventMarker)
  deriving DecidableEq

/-- One step of event ingestion (`visualizer_system.rs` lines 326–348):
only empty value-bags are skipped; a non-empty bag updates the time bounds
and contributes one marker per resolvable class id. -/
def eventStep (resolve : Resolver) (autoColorEgui : ClassId → Color32) (path : EntityPath)
    (st : EventAcc) (e : WaveformTime × List ClassId) : EventAcc :=
  if e.2.isEmpty then st
  else
    { times := updTimes st.times e.1
      markers := st.markers ++ e.2.filterMap (fun class_id =>
        (resolve path class_id).map (fun info =>
          (e.1, ({ entity_path := path
                   label := info.label
                   color := annotationInfoColor autoColorEgui info } : EventMarker)))) }

/-- The event block of `load_points` (`visualizer_system.rs` lines 303–349). -/
def processEvents (resolve : Resolver) (autoColorEgui : ClassId → Color32) (path : EntityPath)
    (eventsq : Stream ClassId) (st : TimeAcc) :
    Except QueryError (TimeAcc × List (WaveformTime × EventMarker)) :=
  match eventsq with
  | none => .ok (st, [])
  | some (.error e) => .error e
  | some (.ok entries) =>
    let acc := entries.foldl (eventStep resolve autoColorEgui path) { times := st, markers := [] }
    .ok (acc.times, acc.markers)

/-- Processing of one visible entity inside `load_points`
(`visualizer_system.rs` lines 83–373): returns the series to store (if
any) and the event markers pushed to the shared collection. -/
def processEntity (resolve : Resolver) (autoColorPath : EntityPath → Color32)
    (autoColorEgui : ClassId → Color32) (input : EntityInput) :
    Except QueryError (Option WaveformSeries × List (WaveformTime × EventMarker)) :=
  match input.entity_path.head? with
  | none => .ok (none, [])
  | some _ =>
    match processAnalog input.scalars (none, none) with
    | .error e => .error e
    | .ok (st1, analog_points) =>
      match processDiscreteStreams resolve autoColorEgui input.entity_path
          input.discretes input.discreteInits input.discreteNormals st1 with
      | .error e => .error e
      | .ok (st2, discrete_points) =>
        match processEvents resolve autoColorEgui input.entity_path input.events st2 with
        | .error e => .error e
        | .ok ((mn, mx), markers) =>
          if mn = none ∧ mx = none then
            .ok (none, markers)
          else if mn = none ∨ mx = none then
            .ok (some { entity_path := input.entity_path
                        min_time := (mn.orElse (fun _ => mx)).getD 0
                        max_time := (mn.orElse (fun _ => mx)).getD 0
                        analog_points := analog_points
                        discrete_points := discrete_points
                        color := autoColorPath input.entity_path }, markers)
          else
            .ok (some { entity_path := input.entity_path
                        min_time := mn.getD 0
                        max_time := mx.getD 0
                        analog_points := analog_points
                        discrete_points := discrete_points
                        color := autoColorPath input.entity_path }, markers)

/-- Model of `WaveformSystem`'s aggregated state (`visualizer_system.rs` lines 22–26):
the per-domain series map (keyed by the first path part) and the shared
events map. -/
structure WaveformSystemState where
  all_series : List (String × List WaveformSeries)
  all_events : List (WaveformTime × List EventMarker)
  deriving DecidableEq

/-- Model of `BTreeMap::entry(k).and_modify(f).or_insert(dflt)` over a sorted
string-keyed entry list. -/
def strMapModifyOrInsert {α : Type} (l : List (String × α)) (k : String) (f : α → α)
    (dflt : α) : List (String × α) :=
  match l with
  | [] => [(k, dflt)]
  | e :: rest =>
    if k < e.1 then (k, dflt) :: e :: rest
    else if k = e.1 then (k, f e.2) :: rest
    else e :: strMapModifyOrInsert rest k f dflt

/-- Model of `BTreeMap::entry(k).and_modify(f).or_insert(dflt)` over a sorted
time-keyed entry list (used by `WaveformEvents::push`). -/
def timeMapModifyOrInsert {α : Type} (l : List (WaveformTime × α)) (k : WaveformTime)
    (f : α → α) (dflt : α) : List (WaveformTime × α) :=
  match l with
  | [] => [(k, dflt)]
  | e :: rest =>
    if k < e.1 then (k, dflt) :: e :: rest
    else if k = e.1 then (k, f e.2) :: rest
    else e :: timeMapModifyOrInsert rest k f dflt

/-- Model of `WaveformEvents::push` (`lib.rs` lines 49–54) applied to a batch of
markers in order. -/
def pushEvents (ev : List (WaveformTime × List EventMarker))
    (markers : List (WaveformTime × EventMarker)) : List (WaveformTime × List EventMarker) :=
  markers.foldl (fun ev m => timeMapModifyOrInsert ev m.1 (fun v => v ++ [m.2]) [m.2]) ev

/-- The `try_for_each` loop of `load_points`: on the first entity error the
loop stops with the state built so far. -/
def loadPointsGo (resolve : Resolver) (autoColorPath : EntityPath → Color32)
    (autoColorEgui : ClassId → Color32) (st : WaveformSystemState) :
    List EntityInput → WaveformSystemState × Except QueryError Unit
  | [] => (st, .ok ())
  | input :: rest =>
    match processEntity resolve autoColorPath autoColorEgui input with
    | .error e => (st, .error e)
    | .ok (sq, markers) =>
      let st := { st with all_events := pushEvents st.all_events markers }
      let st :=
        match sq, input.entity_path.head? with
        | some s, some domain =>
          { st with all_series :=
              strMapModifyOrInsert st.all_series domain (fun v => v ++ [s]) [s] }
        | _, _ => st
      loadPointsGo resolve autoColorPath autoColorEgui st rest

/-- Model of `WaveformSystem::load_points` (`visualizer_system.rs` lines 64–376): the
aggregated state is reset to empty first (lines 72–73), then every visible
entity is processed in turn.  The previous state does not appear: it is
overwritten unconditionally. -/
def loadPoints (resolve : Resolver) (autoColorPath : EntityPath → Color32)
    (autoColorEgui : ClassId → Color32) (inputs : List EntityInput) :
    WaveformSystemState × Except QueryError Unit :=
  loadPointsGo resolve autoColorPath autoColorEgui
    { all_series := [], all_events := [] } inputs

/-- Model of `WaveformSystem::execute` (`visualizer_system.rs` lines 39–50):
`Ok(_) | Err(PrimaryNotFound(_))` become success, any other error is
propagated; the (mutated) state is whatever `load_points` left behind. -/
def execute (resolve : Resolver) (autoColorPath : EntityPath → Color32)
    (autoColorEgui : ClassId → Color32) (prev : WaveformSystemState)
    (inputs : List EntityInput) : WaveformSystemState × Except QueryError Unit :=
  match loadPoints resolve autoColorPath autoColorEgui inputs with
  | (st, .ok _) => (st, .ok ())
  | (st, .error (.PrimaryNotFound _)) => (st, .ok ())
  | (st, .error e) => (st, .error e)

/-! ## Auxiliary predicates and concrete test fixtures -/

instance {ε α : Type} [DecidableEq ε] [DecidableEq α] : DecidableEq (Except ε α) := fun a b =>
  match a, b with
  | .ok x, .ok y =>
    if h : x = y then isTrue (by rw [h]) else isFalse (by intro hc; cases hc; exact h rfl)
  | .error x, .error y =>
    if h : x = y then isTrue (by rw [h]) else isFalse (by intro hc; cases hc; exact h rfl)
  | .ok _, .error _ => isFalse (by intro hc; cases hc)
  | .error _, .ok _ => isFalse (by intro hc; cases hc)

/-- The tolerance-window membership used by the analog lookup. -/
def inWindow (seek_time : WaveformTime) (e : WaveformTime × AnalogPoint) : Prop :=
  seek_time - CURSOR_TIME_TOLERANCE ≤ e.1 ∧ e.1 ≤ seek_time + CURSOR_TIME_TOLERANCE

instance (seek_time : WaveformTime) (e : WaveformTime × AnalogPoint) :
    Decidable (inWindow seek_time e) := by
  unfold inWindow
  infer_instance

/-- The running time bounds are consistent: both absent or both present
and ordered. -/
def TimesOk (st : TimeAcc) : Prop :=
  (st.1 = none ↔ st.2 = none) ∧ ∀ a b, st.1 = some a → st.2 = some b → a ≤ b

/-- All series stored in the aggregated state have ordered time bounds. -/
def seriesOk (st : WaveformSystemState) : Prop :=
  ∀ p ∈ st.all_series, ∀ s ∈ p.2, s.min_time ≤ s.max_time

/-- The two points of the spec's interpolation example: `(0, 0.0)` and
`(10, 10.0)`. -/
def twoPoints : List (WaveformTime × AnalogPoint) := [(0, ⟨0⟩), (10, ⟨10⟩)]

/-- A resolver that resolves every class id (label omitted, fixed color). -/
def cRes : Resolver := fun _ c => some { id := c, label := none, color := some ⟨1, 2, 3, 4⟩ }

/-- A fixed per-entity auto color. -/
def cACP : EntityPath → Color32 := fun _ => ⟨5, 5, 5, 5⟩

/-- A fixed per-class auto color. -/
def cACE : ClassId → Color32 := fun _ => ⟨6, 6, 6, 6⟩

/-- An entity whose only samples are one event entry with a two-element
value-bag. -/
def c2Input : EntityInput :=
  { entity_path := ["a", "b"]
    scalars := none
    discretes := none
    discreteInits := none
    discreteNormals := none
    events := some (.ok [(5, [0, 1])]) }

/-- The series the aggregator stores for `c2Input`: event-only, so both
point sets are empty. -/
def c2Series : WaveformSeries :=
  { entity_path := ["a", "b"]
    min_time := 5
    max_time := 5
    analog_points := { points := [], y_range := none }
    discrete_points := { transitions := [], init := none }
    color := ⟨5, 5, 5, 5⟩ }

/-- An entity whose scalar stream fails with an adapter error. -/
def c3Input : EntityInput :=
  { entity_path := ["a", "b"]
    scalars := some (.error (.Other ("adapter failure")))
    discretes := none
    discreteInits := none
    discreteNormals := none
    events := none }

/-- A series as a previous frame could have stored it. -/
def c3Series : WaveformSeries :=
  { entity_path := ["a", "b"]
    min_time := 0
    max_time := 0
    analog_points := { points := [(0, ⟨1⟩)], y_range := some (1, 1) }
    discrete_points := { transitions := [], init := none }
    color := ⟨5, 5, 5, 5⟩ }

/-- A non-empty previous-frame aggregated state. -/
def c3Prev : WaveformSystemState :=
  { all_series := [("a", [c3Series])], all_events := [] }

/-- An entity with a resolvable discrete-state transition but no
discrete-state-initial stream. -/
def c7Input : EntityInput :=
  { entity_path := ["a", "b"]
    scalars := none
    discretes := some (.ok [(0, [7])])
    discreteInits := none
    discreteNormals := some (.ok [])
    events := none }

/-- A series contributing the analog value range `(0, 10)`. -/
def sA : WaveformSeries :=
  { entity_path := ["a"]
    min_time := 0
    max_time := 10
    analog_points := { points := [(0, ⟨0⟩), (10, ⟨10⟩)], y_range := some (0, 10) }
    discrete_points := { transitions := [], init := none }
    color := ⟨0, 0, 0, 0⟩ }

/-- A purely discrete series: no analog value range. -/
def sB : WaveformSeries :=
  { entity_path := ["b"]
    min_time := 0
    max_time := 0
    analog_points := { points := [], y_range := none }
    discrete_points := { transitions := [(0, ⟨none, ⟨0, 0, 0, 0⟩, .Box⟩)], init := none }
    color := ⟨0, 0, 0, 0⟩ }

/-- A series whose analog value range is the single point `(3.0, 3.0)`. -/
def s3 : WaveformSeries :=
  { sA with
    min_time := 0
    max_time := 0
    analog_points := { points := [(0, ⟨3⟩)], y_range := some (3, 3) } }

/-- A `Box` transition labeled "OFF". -/
def trOFF : DiscreteTransition := { label := some ("OFF"), color := ⟨1, 1, 1, 1⟩, kind := .Box }

/-- A `Box` transition labeled "ON". -/
def trON : DiscreteTransition := { label := some ("ON"), color := ⟨2, 2, 2, 2⟩, kind := .Box }

/-- An init transition. -/
def trINIT : DiscreteTransition := { label := some ("INIT"), color := ⟨3, 3, 3, 3⟩, kind := .Line }

/-! ## General lemmas about filters over sorted entry lists -/

theorem filter_head_least {α : Type} (p : α → Bool) (R : α → α → Prop) :
    ∀ (l : List α) (e : α), l.Pairwise R → (l.filter p).head? = some e →
      e ∈ l ∧ p e = true ∧ ∀ f ∈ l, p f = true → f = e ∨ R e f := by
  intro l
  induction l with
  | nil => intro e _ h; simp at h
  | cons a t ih =>
    intro e hp h
    rcases List.pairwise_cons.mp hp with ⟨ha, ht⟩
    rw [List.filter_cons] at h
    by_cases hpa : p a = true
    · rw [if_pos hpa, List.head?_cons, Option.some_inj] at h
      subst h
      refine ⟨List.mem_cons_self a t, hpa, ?_⟩
      intro f hf _
      rcases List.mem_cons.mp hf with hfa | hft
      · exact Or.inl hfa
      · exact Or.inr (ha f hft)
    · rw [if_neg hpa] at h
      rcases ih e ht h with ⟨he, hpe, hmin⟩
      refine ⟨List.mem_cons_of_mem a he, hpe, ?_⟩
      intro f hf hpf
      rcases List.mem_cons.mp hf with hfa | hft
      · rw [hfa] at hpf; exact absurd hpf hpa
      · exact hmin f hft hpf

theorem filter_last_greatest {α : Type} (p : α → Bool) (R : α → α → Prop)
    (l : List α) (e : α) (hp : l.Pairwise R) (h : (l.filter p).getLast? = some e) :
    e ∈ l ∧ p e = true ∧ ∀ f ∈ l, p f = true → f = e ∨ R f e := by
  have h' : (l.reverse.filter p).head? = some e := by
    rw [List.filter_reverse, List.head?_reverse]
    exact h
  have hp' : l.reverse.Pairwise (fun a b => R b a) := List.pairwise_reverse.mpr hp
  rcases filter_head_least p (fun a b => R b a) l.reverse e hp' h' with ⟨he, hpe, hmin⟩
  refine ⟨List.mem_reverse.mp he, hpe, ?_⟩
  intro f hf hpf
  exact hmin f (List.mem_reverse.mpr hf) hpf

theorem filter_head_isSome {α : Type} (p : α → Bool) (l : List α) (e : α)
    (he : e ∈ l) (hpe : p e = true) : ∃ m, (l.filter p).head? = some m := by
  have hm : e ∈ l.filter p := List.mem_filter.mpr ⟨he, hpe⟩
  cases hf : l.filter p with
  | nil => rw [hf] at hm; exact absurd hm (List.not_mem_nil e)
  | cons x t => exact ⟨x, rfl⟩

theorem filter_last_isSome {α : Type} (p : α → Bool) (l : List α) (e : α)
    (he : e ∈ l) (hpe : p e = true) : ∃ m, (l.filter p).getLast? = some m := by
  rcases filter_head_isSome p l.reverse e (List.mem_reverse.mpr he) hpe with ⟨m, hm⟩
  refine ⟨m, ?_⟩
  rw [List.filter_reverse, List.head?_reverse] at hm
  exact hm

theorem pairwise_key_eq {α : Type} :
    ∀ (l : List (WaveformTime × α)), l.Pairwise (fun a b => a.1 < b.1) →
      ∀ e f, e ∈ l → f ∈ l → e.1 = f.1 → e = f := by
  intro l
  induction l with
  | nil => intro _ e f he _ _; exact absurd he (List.not_mem_nil e)
  | cons a t ih =>
    intro hs e f he hf hk
    rcases List.pairwise_cons.mp hs with ⟨ha, ht⟩
    rcases List.mem_cons.mp he with hea | het
    · rcases List.mem_cons.mp hf with hfa | hft
      · rw [hea, hfa]
      · subst hea
        have h1 : e.1 < f.1 := ha f hft
        exact absurd hk (ne_of_lt h1)
    · rcases List.mem_cons.mp hf with hfa | hft
      · subst hfa
        have h1 : f.1 < e.1 := ha e het
        exact absurd hk (ne_of_gt h1)
      · exact ih ht e f het hft hk

/-! ## Unfolding lemmas for the point lookup -/

theorem analogLookup_window_eq {points : List (WaveformTime × AnalogPoint)}
    {seek_time : WaveformTime} {m : WaveformTime × AnalogPoint}
    (h : (btRangeCC points (seek_time - CURSOR_TIME_TOLERANCE)
      (seek_time + CURSOR_TIME_TOLERANCE)).head? = some m) :
    analogLookup points seek_time = some (m.2.value, false) := by
  unfold analogLookup
  rw [h]

theorem analogLookup_interp_eq {points : List (WaveformTime × AnalogPoint)}
    {seek_time t1 t2 : WaveformTime} {p1 p2 : AnalogPoint}
    (h : (btRangeCC points (seek_time - CURSOR_TIME_TOLERANCE)
      (seek_time + CURSOR_TIME_TOLERANCE)).head? = none)
    (hb : (points.filter (fun e => decide (e.1 < seek_time))).getLast? = some (t1, p1))
    (ha : (points.filter (fun e => decide (seek_time < e.1))).head? = some (t2, p2)) :
    analogLookup points seek_time =
      some (p1.value + (p2.value - p1.value) / ((t2 : ℚ) - (t1 : ℚ)) *
        ((seek_time : ℚ) - (t1 : ℚ)), true) := by
  unfold analogLookup
  rw [h]
  simp only [hb, ha]

theorem analogLookup_none_eq {points : List (WaveformTime × AnalogPoint)}
    {seek_time : WaveformTime}
    (h : (btRangeCC points (seek_time - CURSOR_TIME_TOLERANCE)
      (seek_time + CURSOR_TIME_TOLERANCE)).head? = none)
    (hside : (points.filter (fun e => decide (e.1 < seek_time))).getLast? = none ∨
      (points.filter (fun e => decide (seek_time < e.1))).head? = none) :
    analogLookup points seek_time = none := by
  unfold analogLookup
  rw [h]
  rcases hside with hb | ha
  · simp only [hb]
    cases (points.filter (fun e => decide (seek_time < e.1))).head? with
    | none => rfl
    | some q => rfl
  · simp only [ha]
    cases (points.filter (fun e => decide (e.1 < seek_time))).getLast? with
    | none => rfl
    | some q => rcases q with ⟨t1, p1⟩; rfl

/-! ## C1 -/

/-- C1 (counterexample): with points `(0, 0.0)` and `(10, 10.0)`, the claim
says `lookup(-1) = None`; the code returns `0.0` not interpolated, because
the point at time `0` lies inside the closed tolerance window `[-2, 0]`
around query time `-1`. -/
theorem C1_cex : analogLookup twoPoints (-1) = some (0, false) := by
  norm_num [analogLookup, twoPoints, btRangeCC, CURSOR_TIME_TOLERANCE]

/-- C1 (amended): the analog half of point lookup returns, when some point
lies in the closed tolerance window of 1 time unit around the query time,
that point's value verbatim with `is_interpolated = false`; otherwise, with
points strictly on both sides, the linear interpolation
`p1 + (p2 - p1)/(t2 - t1) * (T - t1)` flagged interpolated; otherwise
`None`.  For the example points, `lookup(5) = 5.0` interpolated,
`lookup(0) = 0.0` not interpolated, `lookup(-1) = 0.0` not interpolated
(the point at `0` is within tolerance of `-1`), and `lookup(-2) = None`. -/
theorem C1_lookup (points : List (WaveformTime × AnalogPoint)) (seek_time : WaveformTime)
    (hs : points.Pairwise (fun a b => a.1 < b.1)) :
    ((∃ e ∈ points, inWindow seek_time e) →
      ∃ e ∈ points, inWindow seek_time e ∧
        analogLookup points seek_time = some (e.2.value, false)) ∧
    ((∀ e ∈ points, ¬ inWindow seek_time e) →
      ∀ t1 p1 t2 p2, (t1, p1) ∈ points → t1 < seek_time →
        (∀ e ∈ points, e.1 < seek_time → e.1 ≤ t1) →
        (t2, p2) ∈ points → seek_time < t2 →
        (∀ e ∈ points, seek_time < e.1 → t2 ≤ e.1) →
        analogLookup points seek_time =
          some (p1.value + (p2.value - p1.value) / ((t2 : ℚ) - (t1 : ℚ)) *
            ((seek_time : ℚ) - (t1 : ℚ)), true)) ∧
    ((∀ e ∈ points, ¬ inWindow seek_time e) →
      ((∀ e ∈ points, ¬ e.1 < seek_time) ∨ (∀ e ∈ points, ¬ seek_time < e.1)) →
      analogLookup points seek_time = none) ∧
    (analogLookup twoPoints 5 = some (5, true) ∧
     analogLookup twoPoints 0 = some (0, false) ∧
     analogLookup twoPoints (-1) = some (0, false) ∧
     analogLookup twoPoints (-2) = none) := by
  have hwin_nil : (∀ e ∈ points, ¬ inWindow seek_time e) →
      (btRangeCC points (seek_time - CURSOR_TIME_TOLERANCE)
        (seek_time + CURSOR_TIME_TOLERANCE)).head? = none := by
    intro hnw
    have hnil : btRangeCC points (seek_time - CURSOR_TIME_TOLERANCE)
        (seek_time + CURSOR_TIME_TOLERANCE) = [] := by
      unfold btRangeCC
      apply List.filter_eq_nil_iff.mpr
      intro a hamem hcontra
      exact hnw a hamem (of_decide_eq_true hcontra)
    rw [hnil]
    rfl
  refine ⟨?_, ?_, ?_, ?_⟩
  · rintro ⟨e, he, hw⟩
    have hpe : (fun f : WaveformTime × AnalogPoint =>
        decide (seek_time - CURSOR_TIME_TOLERANCE ≤ f.1 ∧
          f.1 ≤ seek_time + CURSOR_TIME_TOLERANCE)) e = true := decide_eq_true hw
    rcases filter_head_isSome (fun f : WaveformTime × AnalogPoint =>
      decide (seek_time - CURSOR_TIME_TOLERANCE ≤ f.1 ∧
        f.1 ≤ seek_time + CURSOR_TIME_TOLERANCE)) points e he hpe with ⟨m, hm⟩
    rcases filter_head_least _ (fun a b : WaveformTime × AnalogPoint => a.1 < b.1)
      points m hs hm with ⟨hmem, hpm, _⟩
    exact ⟨m, hmem, of_decide_eq_true hpm, analogLookup_window_eq hm⟩
  · intro hnw t1 p1 t2 p2 hb1 hb2 hb3 ha1 ha2 ha3
    have hwin := hwin_nil hnw
    rcases filter_last_isSome (fun e => decide (e.1 < seek_time)) points (t1, p1) hb1
      (decide_eq_true hb2) with ⟨mb, hmb⟩
    rcases filter_last_greatest _ (fun a b : WaveformTime × AnalogPoint => a.1 < b.1)
      points mb hs hmb with ⟨hmbmem, hmbp, hmbmax⟩
    have hmb1 : mb.1 < seek_time := of_decide_eq_true hmbp
    have hkeyb : mb.1 = t1 := by
      have h1 : mb.1 ≤ t1 := hb3 mb hmbmem hmb1
      have h2 : t1 ≤ mb.1 := by
        rcases hmbmax (t1, p1) hb1 (decide_eq_true hb2) with heq | hlt
        · rw [← heq]
        · exact le_of_lt hlt
      exact le_antisymm h1 h2
    have hmbe : mb = (t1, p1) :=
      pairwise_key_eq points hs mb (t1, p1) hmbmem hb1 hkeyb
    rw [hmbe] at hmb
    rcases filter_head_isSome (fun e => decide (seek_time < e.1)) points (t2, p2) ha1
      (decide_eq_true ha2) with ⟨ma, hma⟩
    rcases filter_head_least _ (fun a b : WaveformTime × AnalogPoint => a.1 < b.1)
      points ma hs hma with ⟨hmamem, hmap, hmamin⟩
    have hma1 : seek_time < ma.1 := of_decide_eq_true hmap
    have hkeya : ma.1 = t2 := by
      have h1 : t2 ≤ ma.1 := ha3 ma hmamem hma1
      have h2 : ma.1 ≤ t2 := by
        rcases hmamin (t2, p2) ha1 (decide_eq_true ha2) with heq | hlt
        · rw [← heq]
        · exact le_of_lt hlt
      exact le_antisymm h2 h1
    have hmae : ma = (t2, p2) :=
      pairwise_key_eq points hs ma (t2, p2) hmamem ha1 hkeya
    rw [hmae] at hma
    exact analogLookup_interp_eq hwin hmb hma
  · intro hnw hside
    have hwin := hwin_nil hnw
    apply analogLookup_none_eq hwin
    rcases hside with hb | ha
    · left
      have hnil : points.filter (fun e => decide (e.1 < seek_time)) = [] := by
        apply List.filter_eq_nil_iff.mpr
        intro a hamem hcontra
        exact hb a hamem (of_decide_eq_true hcontra)
      rw [hnil]
      rfl
    · right
      have hnil : points.filter (fun e => decide (seek_time < e.1)) = [] := by
        apply List.filter_eq_nil_iff.mpr
        intro a hamem hcontra
        exact ha a hamem (of_decide_eq_true hcontra)
      rw [hnil]
      rfl
  · refine ⟨?_, ?_, ?_, ?_⟩ <;>
      norm_num [analogLookup, twoPoints, btRangeCC, CURSOR_TIME_TOLERANCE]

/-- C1 (witness): the amended lookup theorem applied to the example
points at query time 5. -/
theorem C1_lookup_witness : analogLookup twoPoints 5 = some (5, true) :=
  (C1_lookup twoPoints 5 (by decide)).2.2.2.1

/-! ## C10 -/

/-- C10: when points lie within the closed tolerance window
`[T - 1, T + 1]`, the lookup returns the point with the smallest timestamp
in the window, not interpolated. -/
theorem C10_window_least (points : List (WaveformTime × AnalogPoint))
    (seek_time : WaveformTime) (hs : points.Pairwise (fun a b => a.1 < b.1))
    (e : WaveformTime × AnalogPoint) (he : e ∈ points) (hw : inWindow seek_time e)
    (hmin : ∀ f ∈ points, inWindow seek_time f → e.1 ≤ f.1) :
    analogLookup points seek_time = some (e.2.value, false) := by
  have hpe : (fun f : WaveformTime × AnalogPoint =>
      decide (seek_time - CURSOR_TIME_TOLERANCE ≤ f.1 ∧
        f.1 ≤ seek_time + CURSOR_TIME_TOLERANCE)) e = true := decide_eq_true hw
  rcases filter_head_isSome (fun f : WaveformTime × AnalogPoint =>
    decide (seek_time - CURSOR_TIME_TOLERANCE ≤ f.1 ∧
      f.1 ≤ seek_time + CURSOR_TIME_TOLERANCE)) points e he hpe with ⟨m, hm⟩
  rcases filter_head_least _ (fun a b : WaveformTime × AnalogPoint => a.1 < b.1)
    points m hs hm with ⟨hmem, hpm, hmleast⟩
  have hmw : inWindow seek_time m := of_decide_eq_true hpm
  have hkey : m.1 = e.1 := by
    have h1 : e.1 ≤ m.1 := hmin m hmem hmw
    have h2 : m.1 ≤ e.1 := by
      rcases hmleast e he hpe with heq | hlt
      · rw [heq]
      · exact le_of_lt hlt
    exact le_antisymm h2 h1
  have hme : m = e := pairwise_key_eq points hs m e hmem he hkey
  rw [hme] at hm
  exact analogLookup_window_eq hm

/-- C10 (witness): with points at times 4 and 5 and query time 5, both are
in the window `[4, 6]`; the point at `T - 1 = 4` is returned in preference
to the point at `T = 5`. -/
theorem C10_window_least_witness :
    analogLookup [((4 : WaveformTime), AnalogPoint.mk 1), (5, AnalogPoint.mk 2)] 5 =
      some (1, false) :=
  C10_window_least [(4, AnalogPoint.mk 1), (5, AnalogPoint.mk 2)] 5 (by decide)
    (4, AnalogPoint.mk 1) (by decide) (by decide) (by decide)

/-! ## C5 -/

/-- C5: the discrete half of point lookup returns the transition with the
greatest timestamp ≤ T, `None` when no transition has timestamp ≤ T, and
never consults `init`. -/
theorem C5_discrete_lookup (dp : DiscretePoints) (seek_time : WaveformTime)
    (hs : dp.transitions.Pairwise (fun a b => a.1 < b.1)) :
    ((∃ e ∈ dp.transitions, e.1 ≤ seek_time) →
      ∃ m ∈ dp.transitions, m.1 ≤ seek_time ∧
        (∀ f ∈ dp.transitions, f.1 ≤ seek_time → f.1 ≤ m.1) ∧
        discreteLookup dp seek_time = some m) ∧
    ((∀ e ∈ dp.transitions, ¬ e.1 ≤ seek_time) →
      discreteLookup dp seek_time = none) ∧
    (∀ i, discreteLookup { transitions := dp.transitions, init := i } seek_time =
      discreteLookup dp seek_time) := by
  refine ⟨?_, ?_, ?_⟩
  · rintro ⟨e, he, hle⟩
    rcases filter_last_isSome (fun f => decide (f.1 ≤ seek_time)) dp.transitions e he
      (decide_eq_true hle) with ⟨m, hm⟩
    rcases filter_last_greatest _ (fun a b : WaveformTime × DiscreteTransition => a.1 < b.1)
      dp.transitions m hs hm with ⟨hmem, hpm, hmax⟩
    refine ⟨m, hmem, of_decide_eq_true hpm, ?_, hm⟩
    intro f hf hfle
    rcases hmax f hf (decide_eq_true hfle) with heq | hlt
    · rw [heq]
    · exact le_of_lt hlt
  · intro hnone
    unfold discreteLookup
    have hnil : dp.transitions.filter (fun f => decide (f.1 ≤ seek_time)) = [] := by
      apply List.filter_eq_nil_iff.mpr
      intro a hamem hcontra
      exact hnone a hamem (of_decide_eq_true hcontra)
    rw [hnil]
    rfl
  · intro i
    rfl

/-- C5 (witness): the discrete lookup theorem applied to transitions at 0
and 50 with an `init` set, at query time −1: no transition key is ≤ −1,
so the result is `None` (in particular `init` is not returned). -/
theorem C5_discrete_lookup_witness :
    discreteLookup { transitions := [(0, trOFF), (50, trON)], init := some trINIT } (-1) =
      none :=
  (C5_discrete_lookup { transitions := [(0, trOFF), (50, trON)], init := some trINIT }
    (-1) (by decide)).2.1 (by decide)

/-! ## C9 -/

/-- C9: toggling from `Selected` always yields `Unselected` (discarding the
set); toggling from `Unselected` with a non-empty candidate set selects it;
toggling from `Unselected` with an empty set is a no-op. -/
theorem C9_toggle :
    (∀ (s p : Finset EntityPath), SelectedMode.toggle (.Selected s) p = .Unselected) ∧
    (∀ p : Finset EntityPath, p ≠ ∅ →
      SelectedMode.toggle .Unselected p = .Selected p) ∧
    SelectedMode.toggle .Unselected ∅ = .Unselected := by
  refine ⟨fun s p => rfl, fun p hp => ?_, ?_⟩
  · unfold SelectedMode.toggle
    rw [if_pos hp]
  · unfold SelectedMode.toggle
    rw [if_neg]
    intro h
    exact h rfl

/-- C9 (witness): toggling from `Unselected` with the singleton candidate
set containing entity "A" selects it. -/
theorem C9_toggle_witness :
    SelectedMode.toggle .Unselected {["A"]} = .Selected {["A"]} :=
  C9_toggle.2.1 {["A"]} (by decide)

/-! ## C6 -/

/-- C6: the claim (and the `y_range` field's doc comment) says `y_range` is
`None` iff the mapping is empty and otherwise the exact min/max of the
contained values.  The code breaks this: `AnalogPoints::push` inserts a
point without touching `y_range` (non-empty mapping, `y_range = None`), and
analog ingestion of two entries sharing timestamp 0 (values 5 then 1) keeps
the overwritten value 5 inside `y_range = (1, 5)` although the mapping only
contains the value 1. -/
theorem C6_y_range_bug :
    ((AnalogPoints.push { points := [], y_range := none } 0 1).points ≠ [] ∧
     (AnalogPoints.push { points := [], y_range := none } 0 1).y_range = none) ∧
    (btCollect ([((0 : WaveformTime), [(5 : ℚ)]), (0, [1])].foldl analogStep
        { times := (none, none), y_range := none, entries := [] }).entries =
      [(0, AnalogPoint.mk 1)] ∧
     ([((0 : WaveformTime), [(5 : ℚ)]), (0, [1])].foldl analogStep
        { times := (none, none), y_range := none, entries := [] }).y_range =
      some (1, 5)) := by
  refine ⟨⟨?_, rfl⟩, ?_, ?_⟩
  · intro h
    simp [AnalogPoints.push, btInsert] at h
  · norm_num [analogStep, btCollect, btInsert, updTimes, min_def, max_def]
  · norm_num [analogStep, updTimes, min_def, max_def]

/-! ## C8 -/

/-- C8 (counterexample): the claim says bounds are computed by min/max
folding of the member series' analog value ranges, defaulting to `[-1, 1]`
with the no-analog flag only when no series contributes a range.  With
`sA` (range `(0, 10)`) followed by `sB` (no range) the genuine fold gives
`(0, 10)`, but the code's fold resets at `sB` and yields the `[-1, 1]`
default with `any_analog_points = false`. -/
theorem C8_cex :
    domainBounds [sA, sB] = .ok (-1, 1, false) ∧
    sA.analog_points.y_range = some (0, 10) ∧
    specFoldYRanges [sA, sB] = some (0, 10) :=
  ⟨rfl, rfl, rfl⟩

/-- The `min_y` fold step yields `None` at a series without a range. -/
theorem minYStep_none (i : Option ℚ) (s : WaveformSeries)
    (h : s.analog_points.y_range = none) : minYStep i s = none := by
  cases i <;> simp [minYStep, h]

/-- The `max_y` fold step yields `None` at a series without a range. -/
theorem maxYStep_none (i : Option ℚ) (s : WaveformSeries)
    (h : s.analog_points.y_range = none) : maxYStep i s = none := by
  cases i <;> simp [maxYStep, h]

theorem foldMinY_all_none :
    ∀ (l : List WaveformSeries), (∀ s ∈ l, s.analog_points.y_range = none) →
      foldMinY l = none := by
  intro l
  induction l with
  | nil => intro _; rfl
  | cons s rest ih =>
    intro hall
    unfold foldMinY
    rw [List.foldl_cons, minYStep_none none s (hall s (List.mem_cons_self s rest))]
    exact ih fun t ht => hall t (List.mem_cons_of_mem s ht)

theorem foldMaxY_all_none :
    ∀ (l : List WaveformSeries), (∀ s ∈ l, s.analog_points.y_range = none) →
      foldMaxY l = none := by
  intro l
  induction l with
  | nil => intro _; rfl
  | cons s rest ih =>
    intro hall
    unfold foldMaxY
    rw [List.foldl_cons, maxYStep_none none s (hall s (List.mem_cons_self s rest))]
    exact ih fun t ht => hall t (List.mem_cons_of_mem s ht)

/-- C8 (amended): the bounds fold resets whenever a series without an
analog range is encountered, so the result covers only the maximal trailing
run of series with ranges.  When every series lacks a range the bounds
default to `[-1, 1]` flagged no-analog (with the reset, this can also
happen when earlier series do contribute).  A folded single point `(v, v)`
expands to `(v - 0.5, v + 0.5)` — concretely `(3.0, 3.0)` becomes
`(2.5, 3.5)` — and a folded `min > max` is an error for the frame. -/
theorem C8_bounds (ss : List WaveformSeries) :
    ((∀ s ∈ ss, s.analog_points.y_range = none) → domainBounds ss = .ok (-1, 1, false)) ∧
    (∀ x y, foldMinY ss = some x → foldMaxY ss = some y →
      (x < y → domainBounds ss = .ok (x, y, true)) ∧
      (x = y → domainBounds ss = .ok (x - 1/2, x + 1/2, true)) ∧
      (y < x → domainBounds ss = .error ("Invalid analog y range"))) ∧
    domainBounds [s3] = .ok (5/2, 7/2, true) := by
  refine ⟨?_, ?_, ?_⟩
  · intro hall
    unfold domainBounds
    rw [foldMinY_all_none ss hall, foldMaxY_all_none ss hall]
  · intro x y hx hy
    have hred : domainBounds ss =
        if x < y then Except.ok (x, y, true)
        else if x = y then Except.ok (x - 1/2, x + 1/2, true)
        else Except.error ("Invalid analog y range") := by
      unfold domainBounds
      rw [hx, hy]
    rw [hred]
    refine ⟨fun hlt => ?_, fun heq => ?_, fun hgt => ?_⟩
    · rw [if_pos hlt]
    · rw [if_neg (by rw [heq]; exact lt_irrefl y), if_pos heq]
    · rw [if_neg (not_lt.mpr (le_of_lt hgt)), if_neg (ne_of_gt hgt)]
  · norm_num [domainBounds, foldMinY, foldMaxY, minYStep, maxYStep, s3, sA]

/-- C8 (witness): the amended bounds theorem applied to the single-series
domain `[sA]` whose folded range is `(0, 10)`. -/
theorem C8_bounds_witness : domainBounds [sA] = .ok (0, 10, true) :=
  (((C8_bounds [sA]).2.1 0 10 rfl rfl).1) (by norm_num)

/-! ## C2 -/

/-- C2 (counterexample): an event entry at time 5 whose value-bag has
length 2 is not dropped: it sets `min_time = max_time = 5` (so the entity
is stored as a series) and contributes one marker per resolvable class id
— two markers here. -/
theorem C2_cex :
    processEntity cRes cACP cACE c2Input =
      .ok (some { entity_path := ["a", "b"]
                  min_time := 5
                  max_time := 5
                  analog_points := { points := [], y_range := none }
                  discrete_points := { transitions := [], init := none }
                  color := ⟨5, 5, 5, 5⟩ },
        [(5, { entity_path := ["a", "b"], label := none, color := ⟨1, 2, 3, 4⟩ }),
         (5, { entity_path := ["a", "b"], label := none, color := ⟨1, 2, 3, 4⟩ })]) := by
  decide

/-- C2 (amended): for the analog, discrete-state, discrete-state-initial
and discrete-state-normal kinds, a value-bag of length ≠ 1 is silently
dropped (no point, no transition, no time-bound update, no error).  For
the event kind only empty bags are dropped: a non-empty bag — of any
length — updates the time bounds and contributes one marker per
resolvable class id. -/
theorem C2_malformed (r : Resolver) (ace : ClassId → Color32) (path : EntityPath) :
    (∀ (st : AnalogAcc) (e : WaveformTime × List ℚ), e.2.length ≠ 1 →
      analogStep st e = st) ∧
    (∀ e : WaveformTime × List ClassId, e.2.length ≠ 1 → discreteEntryFilter e = none) ∧
    (∀ e : WaveformTime × List ClassId, e.2.length ≠ 1 → normalFilter e = none) ∧
    (∀ e : WaveformTime × List ClassId, e.2.length ≠ 1 → initFilter e = none) ∧
    (∀ (st : EventAcc) (t : WaveformTime), eventStep r ace path st (t, []) = st) ∧
    (∀ (st : EventAcc) (t : WaveformTime) (c : ClassId) (cs : List ClassId),
      eventStep r ace path st (t, c :: cs) =
        { times := updTimes st.times t
          markers := st.markers ++ (c :: cs).filterMap (fun class_id =>
            (r path class_id).map (fun info =>
              (t, ({ entity_path := path
                     label := info.label
                     color := annotationInfoColor ace info } : EventMarker)))) }) := by
  refine ⟨?_, ?_, ?_, ?_, fun st t => rfl, fun st t c cs => rfl⟩
  · intro st e h
    obtain ⟨t, bag⟩ := e
    rcases bag with _ | ⟨a, _ | ⟨b, l⟩⟩
    · rfl
    · exact absurd rfl h
    · unfold analogStep
      have hgt : (t, a :: b :: l).2.length > 1 := by
        simp only [List.length_cons]
        omega
      rw [if_pos hgt]
  · intro e h
    obtain ⟨t, bag⟩ := e
    rcases bag with _ | ⟨a, _ | ⟨b, l⟩⟩
    · rfl
    · exact absurd rfl h
    · unfold discreteEntryFilter
      have hgt : (t, a :: b :: l).2.length > 1 ∨ ((t, a :: b :: l).2.isEmpty = true) := by
        left
        simp only [List.length_cons]
        omega
      rw [if_pos hgt]
  · intro e h
    obtain ⟨t, bag⟩ := e
    rcases bag with _ | ⟨a, _ | ⟨b, l⟩⟩
    · rfl
    · exact absurd rfl h
    · unfold normalFilter
      have hgt : (t, a :: b :: l).2.length > 1 := by
        simp only [List.length_cons]
        omega
      rw [if_pos hgt]
  · intro e h
    obtain ⟨t, bag⟩ := e
    rcases bag with _ | ⟨a, _ | ⟨b, l⟩⟩
    · rfl
    · exact absurd rfl h
    · unfold initFilter
      have hgt : (t, a :: b :: l).2.length > 1 ∨ ((t, a :: b :: l).2.isEmpty = true) := by
        left
        simp only [List.length_cons]
        omega
      rw [if_pos hgt]

/-- C2 (witness): the malformed-sample theorem applied to an empty analog
value-bag at time 3. -/
theorem C2_malformed_witness :
    analogStep { times := (none, none), y_range := none, entries := [] }
      ((3 : WaveformTime), ([] : List ℚ)) =
    { times := (none, none), y_range := none, entries := [] } :=
  (C2_malformed cRes cACE ["a"]).1
    { times := (none, none), y_range := none, entries := [] } (3, []) (by decide)

/-! ## C7 -/

/-- C7 (counterexample): an entity with a resolvable discrete-state
transition at time 0, but with the discrete-state-initial stream absent,
produces no series at all — the transition is not ingested, because the
discrete block requires all three discrete components to be present. -/
theorem C7_cex : processEntity cRes cACP cACE c7Input = .ok (none, []) := by
  decide

/-- C7 (amended): analog and event streams are ingested independently, but
the three discrete streams are processed as one group: if any of them is
absent, no discrete ingestion happens at all (the time bounds and
`DiscretePoints` stay untouched).  When all three are present, the
transitions (and time bounds) do not depend on the initial-state entries,
and an initial-state stream without a valid entry merely leaves `init`
unset. -/
theorem C7_discrete_gate (r : Resolver) (ace : ClassId → Color32) (path : EntityPath)
    (st : TimeAcc) :
    (∀ dq dnq, processDiscreteStreams r ace path dq none dnq st =
      .ok (st, { transitions := [], init := none })) ∧
    (∀ diq dnq, processDiscreteStreams r ace path none diq dnq st =
      .ok (st, { transitions := [], init := none })) ∧
    (∀ dq diq, processDiscreteStreams r ace path dq diq none st =
      .ok (st, { transitions := [], init := none })) ∧
    (∀ d di dn, (loadDiscrete r ace path d di dn st).2.transitions =
        (loadDiscrete r ace path d [] dn st).2.transitions ∧
      (loadDiscrete r ace path d di dn st).1 = (loadDiscrete r ace path d [] dn st).1) ∧
    (∀ d dn, (loadDiscrete r ace path d [] dn st).2.init = none) := by
  refine ⟨?_, ?_, ?_, fun d di dn => ⟨rfl, rfl⟩, fun d dn => rfl⟩
  · intro dq dnq
    cases dq <;> rfl
  · intro diq dnq
    rfl
  · intro dq diq
    cases dq <;> cases diq <;> rfl

/-! ## C3 -/

/-- C3 (counterexample): with a non-empty previous frame state, a failing
aggregation pass leaves the freshly reset (empty) state behind, not the
previous frame's state: the claim's "previous frame's aggregated state is
left in place unchanged" is false. -/
theorem C3_cex :
    execute cRes cACP cACE c3Prev [c3Input] =
      ({ all_series := [], all_events := [] }, .error (.Other ("adapter failure"))) ∧
    ({ all_series := [], all_events := [] } : WaveformSystemState) ≠ c3Prev := by
  refine ⟨by decide, by decide⟩

/-- C3 (amended): a resolution failure (any error other than
`PrimaryNotFound`) is propagated to the caller and aborts the pass, and
`PrimaryNotFound` is turned into an empty success; but the aggregated
state was reset at the start of the pass, so the caller observes the
partially rebuilt state of the failing pass (the same for every previous
state), not the previous frame's state. -/
theorem C3_failure_policy (r : Resolver) (acp : EntityPath → Color32)
    (ace : ClassId → Color32) (prev : WaveformSystemState) (inputs : List EntityInput) :
    (execute r acp ace prev inputs).1 = (loadPoints r acp ace inputs).1 ∧
    (∀ st e, loadPoints r acp ace inputs = (st, .error e) →
      (∀ c, e ≠ .PrimaryNotFound c) → execute r acp ace prev inputs = (st, .error e)) ∧
    (∀ st c, loadPoints r acp ace inputs = (st, .error (.PrimaryNotFound c)) →
      execute r acp ace prev inputs = (st, .ok ())) := by
  refine ⟨?_, ?_, ?_⟩
  · unfold execute
    rcases h : loadPoints r acp ace inputs with ⟨st, res⟩
    cases res with
    | ok u => rfl
    | error e => cases e <;> rfl
  · intro st e hl hnp
    unfold execute
    rw [hl]
    cases e with
    | PrimaryNotFound c => exact absurd rfl (hnp c)
    | BadAccess => rfl
    | Other m => rfl
  · intro st c hl
    unfold execute
    rw [hl]

/-- C3 (witness): the failure-policy theorem applied to the concrete
failing pass over `c3Input`. -/
theorem C3_failure_policy_witness :
    execute cRes cACP cACE c3Prev [c3Input] =
      ({ all_series := [], all_events := [] }, .error (.Other ("adapter failure"))) :=
  (C3_failure_policy cRes cACP cACE c3Prev [c3Input]).2.1
    { all_series := [], all_events := [] } (.Other ("adapter failure")) (by decide)
    (fun c h => QueryError.noConfusion h)

/-! ## C4 -/

theorem timesOk_init : TimesOk (none, none) :=
  ⟨Iff.rfl, fun a _ ha _ => absurd ha (by simp)⟩

theorem timesOk_upd (st : TimeAcc) (t : WaveformTime) : TimesOk (updTimes st t) := by
  obtain ⟨mn, mx⟩ := st
  constructor
  · constructor <;> intro hx <;> simp [updTimes] at hx
  · intro a b ha hb
    simp only [updTimes, Option.some_inj] at ha hb
    subst ha
    subst hb
    cases mn with
    | none =>
      cases mx with
      | none => exact le_refl t
      | some b0 => exact le_max_right b0 t
    | some a0 =>
      cases mx with
      | none => exact min_le_right a0 t
      | some b0 => exact le_trans (min_le_right a0 t) (le_max_right b0 t)

theorem analogStep_timesOk (st : AnalogAcc) (e : WaveformTime × List ℚ)
    (h : TimesOk st.times) : TimesOk (analogStep st e).times := by
  unfold analogStep
  split
  · exact h
  · split
    · exact h
    · exact timesOk_upd st.times e.1

theorem foldl_analogStep_timesOk (entries : List (WaveformTime × List ℚ)) :
    ∀ (st : AnalogAcc), TimesOk st.times →
      TimesOk (entries.foldl analogStep st).times := by
  induction entries with
  | nil => intro st h; exact h
  | cons e rest ih => intro st h; exact ih _ (analogStep_timesOk st e h)

theorem discreteResolveStep_timesOk (r : Resolver) (ace : ClassId → Color32)
    (path : EntityPath) (nrm : Option ClassId) (st : DiscreteAcc)
    (e : WaveformTime × Option ClassId) :
    TimesOk (discreteResolveStep r ace path nrm st e).times := by
  obtain ⟨t, c⟩ := e
  cases c with
  | none =>
    simp only [discreteResolveStep]
    exact timesOk_upd st.times t
  | some cid =>
    cases hc : r path cid with
    | none =>
      simp only [discreteResolveStep, hc]
      exact timesOk_upd st.times t
    | some info =>
      simp only [discreteResolveStep, hc]
      exact timesOk_upd st.times t

theorem foldl_discreteResolveStep_timesOk (r : Resolver) (ace : ClassId → Color32)
    (path : EntityPath) (nrm : Option ClassId)
    (entries : List (WaveformTime × Option ClassId)) :
    ∀ (st : DiscreteAcc), TimesOk st.times →
      TimesOk (entries.foldl (discreteResolveStep r ace path nrm) st).times := by
  induction entries with
  | nil => intro st h; exact h
  | cons e rest ih =>
    intro st h
    exact ih _ (discreteResolveStep_timesOk r ace path nrm st e)

theorem eventStep_timesOk (r : Resolver) (ace : ClassId → Color32) (path : EntityPath)
    (st : EventAcc) (e : WaveformTime × List ClassId) (h : TimesOk st.times) :
    TimesOk (eventStep r ace path st e).times := by
  unfold eventStep
  split
  · exact h
  · exact timesOk_upd st.times e.1

theorem foldl_eventStep_timesOk (r : Resolver) (ace : ClassId → Color32)
    (path : EntityPath) (entries : List (WaveformTime × List ClassId)) :
    ∀ (st : EventAcc), TimesOk st.times →
      TimesOk (entries.foldl (eventStep r ace path) st).times := by
  induction entries with
  | nil => intro st h; exact h
  | cons e rest ih => intro st h; exact ih _ (eventStep_timesOk r ace path st e h)

theorem processAnalog_timesOk (sq : Stream ℚ) (st : TimeAcc) (h : TimesOk st)
    (st' : TimeAcc) (ap : AnalogPoints)
    (hr : processAnalog sq st = .ok (st', ap)) : TimesOk st' := by
  cases sq with
  | none =>
    simp only [processAnalog, Except.ok.injEq, Prod.mk.injEq] at hr
    obtain ⟨h1, _⟩ := hr
    exact h1 ▸ h
  | some res =>
    cases res with
    | error e =>
      simp only [processAnalog] at hr
      exact Except.noConfusion hr
    | ok entries =>
      simp only [processAnalog, Except.ok.injEq, Prod.mk.injEq] at hr
      obtain ⟨h1, _⟩ := hr
      rw [← h1]
      exact foldl_analogStep_timesOk entries _ h

theorem loadDiscrete_timesOk (r : Resolver) (ace : ClassId → Color32) (path : EntityPath)
    (d di dn : List (WaveformTime × List ClassId)) (st : TimeAcc) (h : TimesOk st) :
    TimesOk (loadDiscrete r ace path d di dn st).1 := by
  unfold loadDiscrete
  exact foldl_discreteResolveStep_timesOk r ace path _ _ _ h

theorem processDiscreteStreams_timesOk (r : Resolver) (ace : ClassId → Color32)
    (path : EntityPath) (dq diq dnq : Stream ClassId) (st : TimeAcc) (h : TimesOk st)
    (st' : TimeAcc) (dp : DiscretePoints)
    (hr : processDiscreteStreams r ace path dq diq dnq st = .ok (st', dp)) :
    TimesOk st' := by
  have hdefault : (st, ({ transitions := [], init := none } : DiscretePoints)) = (st', dp) →
      TimesOk st' := by
    intro he
    have h1 : st = st' := congrArg Prod.fst he
    exact h1 ▸ h
  cases dq with
  | none =>
    simp only [processDiscreteStreams, Except.ok.injEq] at hr
    exact hdefault hr
  | some dres =>
    cases diq with
    | none =>
      simp only [processDiscreteStreams, Except.ok.injEq] at hr
      exact hdefault hr
    | some dires =>
      cases dnq with
      | none =>
        simp only [processDiscreteStreams, Except.ok.injEq] at hr
        exact hdefault hr
      | some dnres =>
        cases dres with
        | error e =>
          simp only [processDiscreteStreams] at hr
          exact Except.noConfusion hr
        | ok d =>
          cases dires with
          | error e =>
            simp only [processDiscreteStreams] at hr
            exact Except.noConfusion hr
          | ok di =>
            cases dnres with
            | error e =>
              simp only [processDiscreteStreams] at hr
              exact Except.noConfusion hr
            | ok dn =>
              simp only [processDiscreteStreams, Except.ok.injEq] at hr
              have h1 : (loadDiscrete r ace path d di dn st).1 = st' := by
                rw [hr]
              rw [← h1]
              exact loadDiscrete_timesOk r ace path d di dn st h

theorem processEvents_timesOk (r : Resolver) (ace : ClassId → Color32) (path : EntityPath)
    (eq1 : Stream ClassId) (st : TimeAcc) (h : TimesOk st)
    (st' : TimeAcc) (ms : List (WaveformTime × EventMarker))
    (hr : processEvents r ace path eq1 st = .ok (st', ms)) : TimesOk st' := by
  cases eq1 with
  | none =>
    simp only [processEvents, Except.ok.injEq, Prod.mk.injEq] at hr
    obtain ⟨h1, _⟩ := hr
    exact h1 ▸ h
  | some res =>
    cases res with
    | error e =>
      simp only [processEvents] at hr
      exact Except.noConfusion hr
    | ok entries =>
      simp only [processEvents, Except.ok.injEq, Prod.mk.injEq] at hr
      obtain ⟨h1, _⟩ := hr
      rw [← h1]
      exact foldl_eventStep_timesOk r ace path entries _ h

theorem processEntity_min_le_max (r : Resolver) (acp : EntityPath → Color32)
    (ace : ClassId → Color32) (input : EntityInput) (s : WaveformSeries)
    (markers : List (WaveformTime × EventMarker))
    (h : processEntity r acp ace input = .ok (some s, markers)) :
    s.min_time ≤ s.max_time := by
  unfold processEntity at h
  split at h
  · simp only [Except.ok.injEq, Prod.mk.injEq] at h
    exact Option.noConfusion h.1
  · split at h
    · exact Except.noConfusion h
    · rename_i st1 analog_points ha
      split at h
      · exact Except.noConfusion h
      · rename_i st2 discrete_points hd
        split at h
        · exact Except.noConfusion h
        · rename_i mn mx markers0 he
          have h1 : TimesOk st1 :=
            processAnalog_timesOk input.scalars (none, none) timesOk_init st1
              analog_points ha
          have h2 : TimesOk st2 :=
            processDiscreteStreams_timesOk r ace input.entity_path input.discretes
              input.discreteInits input.discreteNormals st1 h1 st2 discrete_points hd
          have h3 : TimesOk (mn, mx) :=
            processEvents_timesOk r ace input.entity_path input.events st2 h2
              (mn, mx) markers0 he
          split at h
          · simp only [Except.ok.injEq, Prod.mk.injEq] at h
            exact Option.noConfusion h.1
          · split at h
            · simp only [Except.ok.injEq, Prod.mk.injEq, Option.some.injEq] at h
              obtain ⟨hs1, _⟩ := h
              rw [← hs1]
            · rename_i hnand hnor
              simp only [Except.ok.injEq, Prod.mk.injEq, Option.some.injEq] at h
              obtain ⟨hs1, _⟩ := h
              rw [← hs1]
              push_neg at hnor
              obtain ⟨hmn, hmx⟩ := hnor
              obtain ⟨a, ha'⟩ := Option.ne_none_iff_exists'.mp hmn
              obtain ⟨b, hb'⟩ := Option.ne_none_iff_exists'.mp hmx
              simp only [ha', hb', Option.getD_some]
              exact h3.2 a b ha' hb'

theorem strMapModifyOrInsert_forall {α : Type} (P : α → Prop) :
    ∀ (l : List (String × α)) (k : String) (f : α → α) (dflt : α),
      (∀ p ∈ l, P p.2) → (∀ a, P a → P (f a)) → P dflt →
      ∀ p ∈ strMapModifyOrInsert l k f dflt, P p.2 := by
  intro l
  induction l with
  | nil =>
    intro k f dflt hl hf hd p hp
    unfold strMapModifyOrInsert at hp
    have h := List.mem_singleton.mp hp
    rw [h]
    exact hd
  | cons e rest ih =>
    intro k f dflt hl hf hd p hp
    unfold strMapModifyOrInsert at hp
    split at hp
    · rcases List.mem_cons.mp hp with h | h
      · rw [h]; exact hd
      · exact hl p h
    · split at hp
      · rcases List.mem_cons.mp hp with h | h
        · rw [h]
          exact hf e.2 (hl e (List.mem_cons_self e rest))
        · exact hl p (List.mem_cons_of_mem e h)
      · rcases List.mem_cons.mp hp with h | h
        · rw [h]; exact hl e (List.mem_cons_self e rest)
        · exact ih k f dflt (fun q hq => hl q (List.mem_cons_of_mem e hq)) hf hd p h

theorem loadPointsGo_seriesOk (r : Resolver) (acp : EntityPath → Color32)
    (ace : ClassId → Color32) :
    ∀ (inputs : List EntityInput) (st : WaveformSystemState),
      seriesOk st → seriesOk (loadPointsGo r acp ace st inputs).1 := by
  intro inputs
  induction inputs with
  | nil => intro st h; exact h
  | cons input rest ih =>
    intro st h
    unfold loadPointsGo
    cases hp : processEntity r acp ace input with
    | error e => exact h
    | ok pr =>
      obtain ⟨sq, markers⟩ := pr
      cases sq with
      | none =>
        cases hh : input.entity_path.head? with
        | none => exact ih _ h
        | some d => exact ih _ h
      | some s0 =>
        cases hh : input.entity_path.head? with
        | none => exact ih _ h
        | some d =>
          apply ih
          intro p hp2 s1 hs1
          have hs0 : s0.min_time ≤ s0.max_time :=
            processEntity_min_le_max r acp ace input s0 markers hp
          refine strMapModifyOrInsert_forall
            (fun v => ∀ s ∈ v, s.min_time ≤ s.max_time)
            st.all_series d (fun v => v ++ [s0]) [s0] h ?_ ?_ p hp2 s1 hs1
          · intro v hv s2 hs2
            rcases List.mem_append.mp hs2 with h2 | h2
            · exact hv s2 h2
            · have h3 := List.mem_singleton.mp h2
              rw [h3]
              exact hs0
          · intro s2 hs2
            have h3 := List.mem_singleton.mp hs2
            rw [h3]
            exact hs0

/-- C4 (amended): after every aggregation pass each stored series satisfies
`min_time ≤ max_time`, and an entity that has no stream data at all never
enters the aggregator; but a stored series need not contain an analog point
or a discrete transition — an entity whose only samples are events (or
whose discrete samples are unresolvable) is stored with empty analog and
discrete point sets. -/
theorem C4_series_invariants (r : Resolver) (acp : EntityPath → Color32)
    (ace : ClassId → Color32) (inputs : List EntityInput) :
    (∀ p ∈ (loadPoints r acp ace inputs).1.all_series, ∀ s ∈ p.2,
      s.min_time ≤ s.max_time) ∧
    (∀ path : EntityPath, processEntity r acp ace
      { entity_path := path, scalars := none, discretes := none,
        discreteInits := none, discreteNormals := none, events := none } =
      .ok (none, [])) := by
  constructor
  · exact loadPointsGo_seriesOk r acp ace inputs { all_series := [], all_events := [] }
      (fun p hp => absurd hp (List.not_mem_nil p))
  · intro path
    cases path with
    | nil => rfl
    | cons a t => rfl

/-- C4 (witness): the invariant theorem applied to the concrete pass over
`c2Input`, at the one stored series. -/
theorem C4_series_invariants_witness :
    c2Series.min_time ≤ c2Series.max_time :=
  (C4_series_invariants cRes cACP cACE [c2Input]).1 ("a", [c2Series]) (by decide)
    c2Series (by decide)

/-- C4 (counterexample): the pass over `c2Input` stores a series (for the
event-only entity) whose analog point set and discrete transition set are
both empty — the claim's "every stored series contains at least one analog
point or at least one discrete transition" is false. -/
theorem C4_cex :
    (loadPoints cRes cACP cACE [c2Input]).1.all_series = [("a", [c2Series])] ∧
    c2Series.len_series = 0 :=
  ⟨by decide, by decide⟩

end Waveform




